import Mathlib

/-!
Verification development for the GitHub Archive ingestion pipeline
(src/gh/archive.ts): a shallow embedding of its data model and operations,
together with theorems settling the specification claims.

JavaScript values flowing through the pipeline are modelled by the `Json`
inductive below (JSON.parse output); `undefined` and `null` are conflated
into `Json.null`, which is sound for this program because every access the
code performs treats them identically (via `?? null`, `!= null`, `|| {}`).
-/

namespace GhArchive

/-- A JSON value (the output domain of JSON.parse). -/
inductive Json where
  | null
  | bool (b : Bool)
  | num (n : Int)
  | str (s : String)
  | arr (elems : List Json)
  | obj (fields : List (String × Json))

/-- Whitespace characters (the class trimmed by String.prototype.trim and
matched by the regex class used in columnNames). -/
def wsChar (c : Char) : Bool :=
  c = ' ' || c = '\t' || c = '\n' || c = '\r'

/-- Trim whitespace from both ends of a character list (String.prototype.trim). -/
def trimWs (cs : List Char) : List Char :=
  ((cs.dropWhile wsChar).reverse.dropWhile wsChar).reverse

/-- String.prototype.split with a single-character separator, on character
lists: returns the (nonempty) list of segments between occurrences of sep.
An empty input yields one empty segment, as in JavaScript. -/
def splitChar (sep : Char) : List Char → List (List Char)
  | [] => [[]]
  | c :: rest =>
    let r := splitChar sep rest
    if c = sep then [] :: r
    else
      match r with
      | [] => [[c]]
      | seg :: segs => (c :: seg) :: segs

/-- Property access with null-coalescing: models the JavaScript pattern
`e.k` where a missing key (or a non-object receiver) yields undefined,
conflated here with null. -/
def Json.get (e : Json) (k : String) : Json :=
  match e with
  | .obj fields =>
    match fields.lookup k with
    | some v => v
    | none => .null
  | _ => .null

/-- Serialization of a JSON string body with the standard escapes
(model of the string part of JSON.stringify). -/
def renderStringBody (cs : List Char) : List Char :=
  match cs with
  | [] => []
  | c :: rest =>
    (if c = '"' then ['\\', '"']
     else if c = '\\' then ['\\', '\\']
     else if c = '\n' then ['\\', 'n']
     else if c = '\r' then ['\\', 'r']
     else if c = '\t' then ['\\', 't']
     else [c]) ++ renderStringBody rest

mutual

/-- Model of JSON.stringify on JSON values. -/
def Json.render : Json → String
  | .null => "null"
  | .bool b => if b then "true" else "false"
  | .num n => toString n
  | .str s => String.mk ('"' :: renderStringBody s.toList ++ ['"'])
  | .arr elems => "[" ++ Json.renderArr elems ++ "]"
  | .obj fields => "\x7b" ++ Json.renderObj fields ++ "\x7d"

/-- Comma-joined rendering of array elements. -/
def Json.renderArr : List Json → String
  | [] => ""
  | [x] => Json.render x
  | x :: rest => Json.render x ++ "," ++ Json.renderArr rest

/-- Comma-joined rendering of object fields. -/
def Json.renderObj : List (String × Json) → String
  | [] => ""
  | [(k, v)] => Json.render (.str k) ++ ":" ++ Json.render v
  | (k, v) :: rest => Json.render (.str k) ++ ":" ++ Json.render v ++ "," ++ Json.renderObj rest

end

/-- Model of JavaScript String(v) coercion, used for String(event.id). -/
def jsString : Json → String
  | .null => "null"
  | .bool b => if b then "true" else "false"
  | .num n => toString n
  | .str s => s
  | .arr _ => ""
  | .obj _ => "[object Object]"

/-- The helper `json` from archive.ts: JSON.stringify a value, or null when
the value is null/undefined. -/
def json (v : Json) : Json :=
  match v with
  | .null => .null
  | v => .str v.render

/-- An entry of the schema registry: target table, DDL column fragment,
extra index statements, and the payload extraction function
(interface EventSchema in archive.ts). -/
structure EventSchema where
  table : String
  columns : String
  extraIndexes : List String := []
  extract : Json → List Json

/-- The PushEvent entry of EVENT_SCHEMAS in archive.ts; the extract body
transcribes the corresponding arrow function, with p.k modelled by
Json.get p k. -/
def pushEventSchema : EventSchema := {
  table := "push_events",
  columns := "repository_id INTEGER, push_id INTEGER, ref TEXT, head TEXT, before_sha TEXT",
  extract := fun p => [p.get "repository_id", p.get "push_id", p.get "ref", p.get "head", p.get "before"] }

/-- The PullRequestEvent entry of EVENT_SCHEMAS in archive.ts; the extract body
transcribes the corresponding arrow function, with p.k modelled by
Json.get p k. -/
def pullRequestEventSchema : EventSchema := {
  table := "pull_request_events",
  columns := "action TEXT, number INTEGER, pull_request TEXT, label TEXT, labels TEXT, assignee TEXT, assignees TEXT",
  extraIndexes := ["CREATE INDEX idx_pull_request_events_action ON pull_request_events(action)"],
  extract := fun p => [p.get "action", p.get "number", json (p.get "pull_request"), json (p.get "label"), json (p.get "labels"), json (p.get "assignee"), json (p.get "assignees")] }

/-- The IssuesEvent entry of EVENT_SCHEMAS in archive.ts; the extract body
transcribes the corresponding arrow function, with p.k modelled by
Json.get p k. -/
def issuesEventSchema : EventSchema := {
  table := "issues_events",
  columns := "action TEXT, issue TEXT, label TEXT, labels TEXT, assignee TEXT, assignees TEXT",
  extraIndexes := ["CREATE INDEX idx_issues_events_action ON issues_events(action)"],
  extract := fun p => [p.get "action", json (p.get "issue"), json (p.get "label"), json (p.get "labels"), json (p.get "assignee"), json (p.get "assignees")] }

/-- The IssueCommentEvent entry of EVENT_SCHEMAS in archive.ts; the extract body
transcribes the corresponding arrow function, with p.k modelled by
Json.get p k. -/
def issueCommentEventSchema : EventSchema := {
  table := "issue_comment_events",
  columns := "action TEXT, issue TEXT, comment TEXT",
  extract := fun p => [p.get "action", json (p.get "issue"), json (p.get "comment")] }

/-- The CreateEvent entry of EVENT_SCHEMAS in archive.ts; the extract body
transcribes the corresponding arrow function, with p.k modelled by
Json.get p k. -/
def createEventSchema : EventSchema := {
  table := "create_events",
  columns := "ref TEXT, ref_type TEXT, full_ref TEXT, master_branch TEXT, description TEXT, pusher_type TEXT",
  extraIndexes := ["CREATE INDEX idx_create_events_ref_type ON create_events(ref_type)"],
  extract := fun p => [p.get "ref", p.get "ref_type", p.get "full_ref", p.get "master_branch", p.get "description", p.get "pusher_type"] }

/-- The DeleteEvent entry of EVENT_SCHEMAS in archive.ts; the extract body
transcribes the corresponding arrow function, with p.k modelled by
Json.get p k. -/
def deleteEventSchema : EventSchema := {
  table := "delete_events",
  columns := "ref TEXT, ref_type TEXT, full_ref TEXT, pusher_type TEXT",
  extract := fun p => [p.get "ref", p.get "ref_type", p.get "full_ref", p.get "pusher_type"] }

/-- The WatchEvent entry of EVENT_SCHEMAS in archive.ts; the extract body
transcribes the corresponding arrow function, with p.k modelled by
Json.get p k. -/
def watchEventSchema : EventSchema := {
  table := "watch_events",
  columns := "action TEXT",
  extract := fun p => [p.get "action"] }

/-- The ForkEvent entry of EVENT_SCHEMAS in archive.ts; the extract body
transcribes the corresponding arrow function, with p.k modelled by
Json.get p k. -/
def forkEventSchema : EventSchema := {
  table := "fork_events",
  columns := "action TEXT, forkee TEXT",
  extract := fun p => [p.get "action", json (p.get "forkee")] }

/-- The ReleaseEvent entry of EVENT_SCHEMAS in archive.ts; the extract body
transcribes the corresponding arrow function, with p.k modelled by
Json.get p k. -/
def releaseEventSchema : EventSchema := {
  table := "release_events",
  columns := "action TEXT, release TEXT",
  extract := fun p => [p.get "action", json (p.get "release")] }

/-- The MemberEvent entry of EVENT_SCHEMAS in archive.ts; the extract body
transcribes the corresponding arrow function, with p.k modelled by
Json.get p k. -/
def memberEventSchema : EventSchema := {
  table := "member_events",
  columns := "action TEXT, member TEXT",
  extract := fun p => [p.get "action", json (p.get "member")] }

/-- The CommitCommentEvent entry of EVENT_SCHEMAS in archive.ts; the extract body
transcribes the corresponding arrow function, with p.k modelled by
Json.get p k. -/
def commitCommentEventSchema : EventSchema := {
  table := "commit_comment_events",
  columns := "action TEXT, comment TEXT",
  extract := fun p => [p.get "action", json (p.get "comment")] }

/-- The PublicEvent entry of EVENT_SCHEMAS in archive.ts; the extract body
transcribes the corresponding arrow function, with p.k modelled by
Json.get p k. -/
def publicEventSchema : EventSchema := {
  table := "public_events",
  columns := "",
  extract := fun _ => [] }

/-- The GollumEvent entry of EVENT_SCHEMAS in archive.ts; the extract body
transcribes the corresponding arrow function, with p.k modelled by
Json.get p k. -/
def gollumEventSchema : EventSchema := {
  table := "gollum_events",
  columns := "pages TEXT",
  extract := fun p => [json (p.get "pages")] }

/-- The PullRequestReviewEvent entry of EVENT_SCHEMAS in archive.ts; the extract body
transcribes the corresponding arrow function, with p.k modelled by
Json.get p k. -/
def pullRequestReviewEventSchema : EventSchema := {
  table := "pull_request_review_events",
  columns := "action TEXT, review TEXT, pull_request TEXT",
  extract := fun p => [p.get "action", json (p.get "review"), json (p.get "pull_request")] }

/-- The PullRequestReviewCommentEvent entry of EVENT_SCHEMAS in archive.ts; the extract body
transcribes the corresponding arrow function, with p.k modelled by
Json.get p k. -/
def pullRequestReviewCommentEventSchema : EventSchema := {
  table := "pull_request_review_comment_events",
  columns := "action TEXT, comment TEXT, pull_request TEXT",
  extract := fun p => [p.get "action", json (p.get "comment"), json (p.get "pull_request")] }

/-- The DiscussionEvent entry of EVENT_SCHEMAS in archive.ts; the extract body
transcribes the corresponding arrow function, with p.k modelled by
Json.get p k. -/
def discussionEventSchema : EventSchema := {
  table := "discussion_events",
  columns := "action TEXT, discussion TEXT",
  extract := fun p => [p.get "action", json (p.get "discussion")] }

/-- The schema registry EVENT_SCHEMAS from archive.ts, as an ordered
association list (object literal key order). -/
def EVENT_SCHEMAS : List (String × EventSchema) := [
  ("PushEvent", pushEventSchema),
  ("PullRequestEvent", pullRequestEventSchema),
  ("IssuesEvent", issuesEventSchema),
  ("IssueCommentEvent", issueCommentEventSchema),
  ("CreateEvent", createEventSchema),
  ("DeleteEvent", deleteEventSchema),
  ("WatchEvent", watchEventSchema),
  ("ForkEvent", forkEventSchema),
  ("ReleaseEvent", releaseEventSchema),
  ("MemberEvent", memberEventSchema),
  ("CommitCommentEvent", commitCommentEventSchema),
  ("PublicEvent", publicEventSchema),
  ("GollumEvent", gollumEventSchema),
  ("PullRequestReviewEvent", pullRequestReviewEventSchema),
  ("PullRequestReviewCommentEvent", pullRequestReviewCommentEventSchema),
  ("DiscussionEvent", discussionEventSchema)
]

/-- columnNames from archive.ts: split the DDL fragment on commas, trim each
piece, and keep its first whitespace-delimited token. -/
def columnNames (ddl : String) : List String :=
  if ddl = "" then []
  else (splitChar ',' ddl.toList).map (fun col => String.mk ((trimWs col).takeWhile (fun c => !wsChar c)))

/-- COMMON_DDL from archive.ts: the envelope columns shared by every table. -/
def COMMON_DDL : String :=
  "\n  id TEXT PRIMARY KEY,\n  created_at TEXT NOT NULL,\n  public INTEGER NOT NULL DEFAULT 1,\n  actor_id INTEGER,\n  actor_login TEXT,\n  actor_display_login TEXT,\n  actor_gravatar_id TEXT,\n  actor_avatar_url TEXT,\n  actor_url TEXT,\n  repo_id INTEGER,\n  repo_name TEXT,\n  repo_url TEXT,\n  org_id INTEGER,\n  org_login TEXT,\n  org_gravatar_id TEXT,\n  org_avatar_url TEXT,\n  org_url TEXT,\n  other TEXT"

/-- KNOWN_EVENT_KEYS from archive.ts. -/
def KNOWN_EVENT_KEYS : List String :=
  ["id", "type", "public", "created_at", "actor", "repo", "org", "payload"]

/-- Strict equality to the boolean false (the test event.public === false). -/
def Json.isFalse : Json → Bool
  | .bool false => true
  | _ => false

/-- The residual top-level fields of an event object: every key outside
KNOWN_EVENT_KEYS, with its value (the otherFields loop of commonValues). -/
def otherFields (fields : List (String × Json)) : List (String × Json) :=
  fields.filter (fun kv => !(KNOWN_EVENT_KEYS.contains kv.1))

/-- commonValues from archive.ts: the 18 envelope column values of a record. -/
def commonValues (event : Json) : List Json :=
  let actor := event.get "actor"
  let repo := event.get "repo"
  let org := event.get "org"
  let other :=
    match event with
    | .obj fields =>
      if (otherFields fields).length > 0
      then Json.str (Json.render (.obj (otherFields fields)))
      else Json.null
    | _ => Json.null
  [ .str (jsString (event.get "id")),
    event.get "created_at",
    (if (event.get "public").isFalse then .num 0 else .num 1),
    actor.get "id", actor.get "login", actor.get "display_login", actor.get "gravatar_id", actor.get "avatar_url", actor.get "url",
    repo.get "id", repo.get "name", repo.get "url",
    org.get "id", org.get "login", org.get "gravatar_id", org.get "avatar_url", org.get "url",
    other ]

/-- The parenthesized column-definition body of the CREATE TABLE statement
built by createArchiveDatabase: COMMON_DDL followed, when the schema declares
columns, by a comma and the schema's fragment. -/
def tableDdlBody (schema : EventSchema) : String :=
  COMMON_DDL ++ (if schema.columns = "" then "" else ",\n      " ++ schema.columns)

/-- The ordered column list of the table created for a schema. -/
def tableColumns (schema : EventSchema) : List String :=
  columnNames (tableDdlBody schema)

/-- The ordered column list of the prepared INSERT OR IGNORE statement built
by prepareInserts: COMMON_COLS followed by the names derived from the schema
columns fragment. -/
def insertColumns (schema : EventSchema) : List String :=
  columnNames COMMON_DDL ++ columnNames schema.columns

/-! The chunk loop of loadEvents: data = remainder + chunk, split on the
line-feed character, pop the last segment as the new remainder, process the
other segments; after the final chunk the remainder is processed as a line. -/

/-- The logical lines produced by the chunk loop of loadEvents, starting
from a given remainder. -/
def chunkLinesFrom : List Char → List (List Char) → List (List Char)
  | remainder, [] => [remainder]
  | remainder, chunk :: rest =>
    let lines := splitChar '\n' (remainder ++ chunk)
    lines.dropLast ++ chunkLinesFrom (lines.getLastD []) rest

/-- The full sequence of logical lines loadEvents feeds to processLine for a
stream delivered as the given chunks (initial remainder empty, final
remainder emitted as the last line). -/
def chunkedLines (chunks : List (List Char)) : List (List Char) :=
  chunkLinesFrom [] chunks

/-- Prepend a fragment onto the first segment of a segment list (the fusion
that happens at a chunk boundary). -/
def consHead (x : List Char) : List (List Char) → List (List Char)
  | [] => [x]
  | s :: ss => (x ++ s) :: ss

/-! Model of JSON.parse (the builtin used by processLine), over the integral
fragment the snapshot feed uses: null, booleans, integer numbers, strings
with the common escapes, arrays and objects. A malformed input yields none
(the model of JSON.parse throwing). Recursion is bounded by explicit fuel;
the entry point supplies fuel exceeding the input length, which suffices
because every recursive call first consumes at least one input character. -/

/-- Skip JSON insignificant whitespace. -/
def skipWs (cs : List Char) : List Char :=
  cs.dropWhile wsChar

/-- Parse the body of a JSON string after the opening quote; returns the
decoded characters and the input remaining after the closing quote. -/
def parseStringBody : Nat → List Char → Option (List Char × List Char)
  | 0, _ => none
  | _, [] => none
  | fuel + 1, c :: rest =>
    if c = '"' then some ([], rest)
    else if c = '\\' then
      match rest with
      | [] => none
      | e :: rest2 =>
        let dec : Option Char :=
          if e = '"' then some '"'
          else if e = '\\' then some '\\'
          else if e = '/' then some '/'
          else if e = 'n' then some '\n'
          else if e = 't' then some '\t'
          else if e = 'r' then some '\r'
          else if e = 'b' then some (Char.ofNat 8)
          else if e = 'f' then some (Char.ofNat 12)
          else none
        match dec with
        | none => none
        | some d => (parseStringBody fuel rest2).map (fun sr => (d :: sr.1, sr.2))
    else (parseStringBody fuel rest).map (fun sr => (c :: sr.1, sr.2))

/-- Parse a JSON integer numeral (optional minus sign, then digits). -/
def parseNumber (cs : List Char) : Option (Json × List Char) :=
  let signed := cs.head? = some '-'
  let cs2 := if signed then cs.tail else cs
  let digits := cs2.takeWhile Char.isDigit
  if digits = [] then none
  else
    let n : Int := digits.foldl (fun n c => n * 10 + ((c.toNat : Int) - 48)) 0
    some (.num (if signed then -n else n), cs2.dropWhile Char.isDigit)

mutual

/-- Parse one JSON value, returning it and the remaining input. -/
def parseValue : Nat → List Char → Option (Json × List Char)
  | 0, _ => none
  | fuel + 1, cs =>
    match skipWs cs with
    | 'n' :: 'u' :: 'l' :: 'l' :: r => some (.null, r)
    | 't' :: 'r' :: 'u' :: 'e' :: r => some (.bool true, r)
    | 'f' :: 'a' :: 'l' :: 's' :: 'e' :: r => some (.bool false, r)
    | '"' :: r => (parseStringBody fuel r).map (fun sr => (.str (String.mk sr.1), sr.2))
    | '[' :: r =>
      match skipWs r with
      | ']' :: r2 => some (.arr [], r2)
      | _ => (parseArrItems fuel r).map (fun vr => (.arr vr.1, vr.2))
    | '\x7b' :: r =>
      match skipWs r with
      | '\x7d' :: r2 => some (.obj [], r2)
      | _ => (parseObjItems fuel r).map (fun fr => (.obj fr.1, fr.2))
    | cs2 => parseNumber cs2

/-- Parse the elements of a nonempty JSON array up to the closing bracket. -/
def parseArrItems : Nat → List Char → Option (List Json × List Char)
  | 0, _ => none
  | fuel + 1, cs =>
    match parseValue fuel cs with
    | none => none
    | some (v, r) =>
      match skipWs r with
      | ',' :: r2 => (parseArrItems fuel r2).map (fun vr => (v :: vr.1, vr.2))
      | ']' :: r2 => some ([v], r2)
      | _ => none

/-- Parse the membership list of a nonempty JSON object up to the closing
brace. -/
def parseObjItems : Nat → List Char → Option (List (String × Json) × List Char)
  | 0, _ => none
  | fuel + 1, cs =>
    match skipWs cs with
    | '"' :: r =>
      match parseStringBody fuel r with
      | none => none
      | some (k, r2) =>
        match skipWs r2 with
        | ':' :: r3 =>
          match parseValue fuel r3 with
          | none => none
          | some (v, r4) =>
            match skipWs r4 with
            | ',' :: r5 => (parseObjItems fuel r5).map (fun fr => ((String.mk k, v) :: fr.1, fr.2))
            | '\x7d' :: r5 => some ([(String.mk k, v)], r5)
            | _ => none
        | _ => none
    | _ => none

end

/-- Model of JSON.parse: parse one value and require the rest of the input
to be whitespace; none models a thrown SyntaxError. -/
def Json.parse (s : String) : Option Json :=
  match parseValue (s.length + 2) s.toList with
  | some (v, r) => if skipWs r = [] then some v else none
  | none => none

/-! The batch loader of loadEvents. -/

/-- BATCH_SIZE from archive.ts. -/
def BATCH_SIZE : Nat := 10000

/-- The mutable state of loadEvents: the running total, the per-type counts,
the current in-memory batch, and the list of batches already executed by the
flush transaction, oldest first. -/
structure LoadState where
  count : Nat
  typeCounts : String → Nat
  batch : List (String × List Json)
  txns : List (List (String × List Json))

/-- The state of loadEvents before any line is processed. -/
def initState : LoadState :=
  { count := 0, typeCounts := fun _ => 0, batch := [], txns := [] }

/-- The payload handed to the extract function: event.payload with any falsy
value replaced by the empty object (the expression event.payload || {}). -/
def payloadOrEmpty (event : Json) : Json :=
  match event.get "payload" with
  | .null => .obj []
  | .bool false => .obj []
  | .num 0 => .obj []
  | .str "" => .obj []
  | v => v

/-- The row pushed onto the batch for an accepted event: its type tag and
the common envelope values followed by the schema's extracted values. -/
def mkRow (t : String) (schema : EventSchema) (event : Json) : String × List Json :=
  (t, commonValues event ++ schema.extract (payloadOrEmpty event))

/-- The part of processLine after a successful decode: look the type tag up
in the registry (dropping the event when absent), push the row, bump the
counts, and flush the batch once it reaches BATCH_SIZE. -/
def processEvent (st : LoadState) (event : Json) : LoadState :=
  match event.get "type" with
  | .str t =>
    match EVENT_SCHEMAS.lookup t with
    | none => st
    | some schema =>
      let batch := st.batch ++ [mkRow t schema event]
      let tc := fun ty => if ty = t then st.typeCounts ty + 1 else st.typeCounts ty
      if BATCH_SIZE ≤ batch.length then
        { count := st.count + 1, typeCounts := tc, batch := [], txns := st.txns ++ [batch] }
      else
        { count := st.count + 1, typeCounts := tc, batch := batch, txns := st.txns }
  | _ => st

/-- processLine from loadEvents: skip blank lines, skip lines that fail to
decode, then hand the decoded record to the accept path. -/
def processLine (st : LoadState) (line : String) : LoadState :=
  if String.mk (trimWs line.toList) = "" then st
  else
    match Json.parse line with
    | none => st
    | some event => processEvent st event

/-- The flush of the final partial batch after the last line of input. -/
def finishLoad (st : LoadState) : LoadState :=
  if 0 < st.batch.length then { st with batch := [], txns := st.txns ++ [st.batch] } else st

/-- The complete load loop of loadEvents over a sequence of logical lines. -/
def loadLines (lines : List String) : LoadState :=
  finishLoad (lines.foldl processLine initState)

/-- The record sequence processLine accepts from a line sequence: non-blank
lines that decode, in order. -/
def decodedOf (lines : List String) : List Json :=
  lines.filterMap (fun line =>
    if String.mk (trimWs line.toList) = "" then none else Json.parse line)

/-- The load loop over already-decoded records (the accept path of
processLine applied to each record, then the final flush). -/
def loadRecords (events : List Json) : LoadState :=
  finishLoad (events.foldl processEvent initState)

/-- Whether a decoded record's type tag is present in the registry. -/
def isRegistered (e : Json) : Bool :=
  match e.get "type" with
  | .str t => (EVENT_SCHEMAS.lookup t).isSome
  | _ => false

/-- Whether a decoded record carries the given type tag. -/
def hasTypeTag (e : Json) (t : String) : Bool :=
  match e.get "type" with
  | .str s => s == t
  | _ => false

/-! The SQLite store, observed per table as the list of accepted rows in
insertion order. -/

/-- The primary-key value of a stored row: its first column (the id column,
a TEXT value for every row this pipeline builds). -/
def rowId (vals : List Json) : Option String :=
  match vals with
  | .str s :: _ => some s
  | _ => none

/-- The store: each table name mapped to its rows in insertion order. -/
def Store := String → List (List Json)

/-- The freshly created database: every table empty (createArchiveDatabase
first deletes the database file and its WAL/SHM side files, so no prior
content survives). -/
def emptyStore : Store := fun _ => []

/-- INSERT OR IGNORE on one table keyed on the id primary key: the row is
appended unless a row with the same key value is already present. -/
def insertOrIgnore (rows : List (List Json)) (vals : List Json) : List (List Json) :=
  if rows.any (fun r => rowId r == rowId vals) then rows else rows ++ [vals]

/-- Execute one buffered row's prepared insert: route the row to its event
type's table and apply INSERT OR IGNORE there. -/
def applyRow (db : Store) (row : String × List Json) : Store :=
  match EVENT_SCHEMAS.lookup row.1 with
  | none => db
  | some schema =>
    fun t => if t = schema.table then insertOrIgnore (db t) row.2 else db t

/-- The store contents after the flush transactions of a load state have
executed in order against a fresh database. -/
def applyTxns (txns : List (List (String × List Json))) : Store :=
  (txns.flatten).foldl applyRow emptyStore

/-- One full pipeline run against a snapshot given as logical lines:
createArchiveDatabase deletes any prior store and creates fresh tables, then
loadEvents buffers rows and flushes them in transactions. The prior store
contents are discarded regardless of what they were. -/
def runPipeline (_prior : Store) (lines : List String) : Store :=
  applyTxns (loadLines lines).txns

/-! Argument parsing and the main entry sequence. -/

/-- Whether a year is a leap year (Date rollover arithmetic). -/
def isLeapYear (y : Nat) : Bool :=
  (y % 4 = 0 && y % 100 ≠ 0) || y % 400 = 0

/-- Days in a month (1-12) of a year. -/
def daysInMonth (y m : Nat) : Nat :=
  if m = 2 then (if isLeapYear y then 29 else 28)
  else if m = 4 || m = 6 || m = 9 || m = 11 then 30
  else 31

/-- Model of setUTCDate(getUTCDate() - 1) on a UTC date (y, m, d): the
previous calendar day, with Date normalizing day 0 into the previous
month. -/
def yesterdayUTC : Nat × Nat × Nat → Nat × Nat × Nat
  | (y, m, d) =>
    if 1 < d then (y, m, d - 1)
    else if 1 < m then (y, m - 1, daysInMonth y (m - 1))
    else (y - 1, 12, 31)

/-- String(n).padStart(2, "0") for the month and day components. -/
def pad2 (n : Nat) : String :=
  if n < 10 then "0" ++ toString n else toString n

/-- The default date string built by parseArgs: year unpadded, month and day
padded to two digits. -/
def formatYMD : Nat × Nat × Nat → String
  | (y, m, d) => toString y ++ "-" ++ pad2 m ++ "-" ++ pad2 d

/-- Model of parseInt(s, 10): skip leading whitespace, take an optional
sign and then a maximal digit prefix; none models NaN (no digits). -/
def parseIntBase10 (s : String) : Option Int :=
  let cs := s.toList.dropWhile wsChar
  let neg := cs.head? = some '-'
  let cs2 := if cs.head? = some '-' || cs.head? = some '+' then cs.tail else cs
  let digits := cs2.takeWhile Char.isDigit
  if digits = [] then none
  else
    let n : Int := digits.foldl (fun n c => n * 10 + ((c.toNat : Int) - 48)) 0
    some (if neg then -n else n)

/-- The test of the date regex of parseArgs: exactly four digits, a dash,
two digits, a dash, two digits. -/
def isDateFormat (s : String) : Bool :=
  match s.toList with
  | [a, b, c, d, '-', e, f, '-', g, h] =>
    [a, b, c, d, e, f, g, h].all Char.isDigit
  | _ => false

/-- parseArgs from archive.ts, parameterized by the current UTC date (the
value new Date() observes): with no arguments, yesterday's UTC date and
hour 0; otherwise validate the date against the format regex and the hour
via parseInt and the 0-23 range check, throwing (error) on failure. -/
def parseArgs (today : Nat × Nat × Nat) (args : List String) : Except String (String × Int) :=
  if args.length = 0 then
    .ok (formatYMD (yesterdayUTC today), 0)
  else
    let date := args.headD ""
    if !isDateFormat date then
      .error ("Invalid date format: " ++ date ++ ". Expected YYYY-MM-DD")
    else
      let hourOpt := if 2 ≤ args.length then parseIntBase10 (args.getD 1 "") else some 0
      match hourOpt with
      | none => .error ("Invalid hour: " ++ args.getD 1 "" ++ ". Expected 0-23")
      | some hour =>
        if hour < 0 || 23 < hour then
          .error ("Invalid hour: " ++ args.getD 1 "" ++ ". Expected 0-23")
        else .ok (date, hour)

/-- The network requests main issues: none when parseArgs throws (the fatal
ArgumentError precedes any I/O), otherwise the one snapshot URL built from
the parsed date and hour. -/
def mainRequests (today : Nat × Nat × Nat) (args : List String) : List String :=
  match parseArgs today args with
  | .error _ => []
  | .ok (date, hour) =>
    ["https://data.gharchive.org/" ++ date ++ "-" ++ toString hour ++ ".json.gz"]

/-! The download function, modelled against an HTTP environment mapping each
URL to its response. -/

/-- The parts of an HTTP response download inspects: the status code and the
Location header. -/
structure HttpResponse where
  statusCode : Nat
  location : String

/-- The outcome download settles its promise with. -/
inductive DownloadResult where
  | success
  | httpError (status : Nat)

/-- download from archive.ts, observed for a bounded number of hops: on a
301/302 response it deletes the partial file and re-issues the request
against the Location target, with no depth bound in the source; the fuel
argument is the observation bound, and none means the recursion is still
running (no outcome) after that many hops. -/
def download (env : String → HttpResponse) : Nat → String → Option DownloadResult
  | 0, _ => none
  | fuel + 1, url =>
    let r := env url
    if r.statusCode = 301 || r.statusCode = 302 then download env fuel r.location
    else if r.statusCode ≠ 200 then some (.httpError r.statusCode)
    else some .success

/-! Helpers for stating the claims. -/

/-- The payload keys each registry entry's extract function reads, in column
order, transcribed from the extract bodies in EVENT_SCHEMAS (note the
before_sha column is extracted from the payload key named before). -/
def srcKeys : String → List String
  | "PushEvent" => ["repository_id", "push_id", "ref", "head", "before"]
  | "PullRequestEvent" => ["action", "number", "pull_request", "label", "labels", "assignee", "assignees"]
  | "IssuesEvent" => ["action", "issue", "label", "labels", "assignee", "assignees"]
  | "IssueCommentEvent" => ["action", "issue", "comment"]
  | "CreateEvent" => ["ref", "ref_type", "full_ref", "master_branch", "description", "pusher_type"]
  | "DeleteEvent" => ["ref", "ref_type", "full_ref", "pusher_type"]
  | "WatchEvent" => ["action"]
  | "ForkEvent" => ["action", "forkee"]
  | "ReleaseEvent" => ["action", "release"]
  | "MemberEvent" => ["action", "member"]
  | "CommitCommentEvent" => ["action", "comment"]
  | "PublicEvent" => []
  | "GollumEvent" => ["pages"]
  | "PullRequestReviewEvent" => ["action", "review", "pull_request"]
  | "PullRequestReviewCommentEvent" => ["action", "comment", "pull_request"]
  | "DiscussionEvent" => ["action", "discussion"]
  | _ => []

/-- Spec-language reading of the claim that an hour argument denotes an
integer in the range 0 to 23: the whole string is a decimal numeral with an
optional sign, and its value lies in the range. Used to compare the claimed
validation against the parseInt-based validation the code performs. -/
def denotesHourInRange (s : String) : Bool :=
  let cs := s.toList
  let cs2 := if cs.head? = some '-' || cs.head? = some '+' then cs.tail else cs
  (!cs2.isEmpty) && cs2.all Char.isDigit &&
    (match parseIntBase10 s with
     | some n => 0 ≤ n && n ≤ 23
     | none => false)

/-- A synthetic decoded WatchEvent record with a distinct id per index, used
to instantiate the batching statements on concrete inputs. -/
def watchStub (i : Nat) : Json :=
  .obj [("id", .str (String.mk (List.replicate i 'a'))),
        ("type", .str "WatchEvent"),
        ("payload", .obj [("action", .str "started")])]

/-- A concrete WatchEvent input line, used to instantiate statements about
duplicate identifiers on a concrete input. -/
def watchLine : String :=
  "\x7b\"id\":\"1\",\"type\":\"WatchEvent\",\"created_at\":\"t\",\"actor\":\x7b\x7d,\"repo\":\x7b\x7d,\"payload\":\x7b\"action\":\"started\"\x7d\x7d"

theorem splitChar_ne_nil (sep : Char) (cs : List Char) : splitChar sep cs ≠ [] := by
  cases cs with
  | nil => simp [splitChar]
  | cons c rest =>
    simp only [splitChar]
    split
    · simp
    · split <;> simp_all

theorem splitChar_cons (sep c : Char) (rest : List Char) :
    splitChar sep (c :: rest) =
      if c = sep then [] :: splitChar sep rest else consHead [c] (splitChar sep rest) := by
  simp only [splitChar]
  split
  · rfl
  · cases h : splitChar sep rest <;> simp [consHead]

theorem consHead_nil_of_ne_nil (r : List (List Char)) (h : r ≠ []) : consHead [] r = r := by
  cases r with
  | nil => exact absurd rfl h
  | cons s ss => simp [consHead]

theorem consHead_consHead (x y : List Char) (r : List (List Char)) :
    consHead x (consHead y r) = consHead (x ++ y) r := by
  cases r <;> simp [consHead]

theorem splitChar_of_not_mem (sep : Char) (cs : List Char) (h : sep ∉ cs) :
    splitChar sep cs = [cs] := by
  induction cs with
  | nil => rfl
  | cons c rest ih =>
    simp only [List.mem_cons, not_or] at h
    have hc : ¬(c = sep) := fun hcs => h.1 hcs.symm
    rw [splitChar_cons, if_neg hc, ih h.2]
    rfl

theorem not_mem_of_mem_splitChar (sep : Char) (cs seg : List Char)
    (h : seg ∈ splitChar sep cs) : sep ∉ seg := by
  induction cs generalizing seg with
  | nil => simp [splitChar] at h; simp [h]
  | cons c rest ih =>
    rw [splitChar_cons] at h
    by_cases hc : c = sep
    · rw [if_pos hc] at h
      simp only [List.mem_cons] at h
      rcases h with rfl | h
      · simp
      · exact ih seg h
    · rw [if_neg hc] at h
      cases hr : splitChar sep rest with
      | nil => exact absurd hr (splitChar_ne_nil sep rest)
      | cons s ss =>
        rw [hr] at h
        simp only [consHead, List.mem_cons] at h
        rcases h with rfl | h
        · have hs : sep ∉ s := ih s (by rw [hr]; exact List.mem_cons_self s ss)
          simp only [List.cons_append, List.nil_append, List.mem_cons, not_or]
          exact ⟨fun hcs => hc hcs.symm, hs⟩
        · exact ih seg (by rw [hr]; exact List.mem_cons_of_mem s h)

theorem splitChar_append (sep : Char) (a b : List Char) :
    splitChar sep (a ++ b) =
      (splitChar sep a).dropLast ++ consHead ((splitChar sep a).getLastD []) (splitChar sep b) := by
  induction a with
  | nil =>
    have h2 : (splitChar sep ([] : List Char)).dropLast = [] := rfl
    have h3 : (splitChar sep ([] : List Char)).getLastD [] = [] := by
      simp [splitChar]
    rw [List.nil_append, h2, h3, List.nil_append,
      consHead_nil_of_ne_nil _ (splitChar_ne_nil sep b)]
  | cons c rest ih =>
    rw [List.cons_append, splitChar_cons, splitChar_cons]
    by_cases hc : c = sep
    · rw [if_pos hc, if_pos hc, ih]
      cases hr : splitChar sep rest with
      | nil => exact absurd hr (splitChar_ne_nil sep rest)
      | cons s ss => simp [List.getLastD]
    · rw [if_neg hc, if_neg hc]
      cases hr : splitChar sep rest with
      | nil => exact absurd hr (splitChar_ne_nil sep rest)
      | cons s ss =>
        rw [hr] at ih
        cases ss with
        | nil =>
          simp only [List.dropLast, List.nil_append, List.getLastD] at ih ⊢
          rw [ih, consHead_consHead, consHead]
          rfl
        | cons s2 ss2 =>
          have hdl : ((s :: s2 :: ss2) : List (List Char)).dropLast = s :: (s2 :: ss2).dropLast := rfl
          have hld : ((s :: s2 :: ss2) : List (List Char)).getLastD [] = (s2 :: ss2).getLastD [] := rfl
          rw [hdl, hld, List.cons_append] at ih
          rw [ih]
          simp [consHead, List.getLastD]

theorem getLastD_mem_of_ne_nil (r : List (List Char)) (h : r ≠ []) : r.getLastD [] ∈ r := by
  cases r with
  | nil => exact absurd rfl h
  | cons s ss =>
    rw [List.getLastD_cons]
    exact List.getLastD_mem_cons ss s

theorem splitChar_sepFree_append (sep : Char) (x b : List Char) (hx : sep ∉ x) :
    splitChar sep (x ++ b) = consHead x (splitChar sep b) := by
  induction x with
  | nil =>
    rw [List.nil_append, consHead_nil_of_ne_nil _ (splitChar_ne_nil sep b)]
  | cons c x ih =>
    simp only [List.mem_cons, not_or] at hx
    have hc : ¬(c = sep) := fun h => hx.1 h.symm
    rw [List.cons_append, splitChar_cons, if_neg hc, ih hx.2, consHead_consHead]
    rfl

theorem chunkLinesFrom_eq (chunks : List (List Char)) (r : List Char) (hr : '\n' ∉ r) :
    chunkLinesFrom r chunks = splitChar '\n' (r ++ chunks.flatten) := by
  induction chunks generalizing r with
  | nil => simp [chunkLinesFrom, splitChar_of_not_mem '\n' r hr]
  | cons chunk rest ih =>
    simp only [chunkLinesFrom, List.flatten_cons]
    have hne := splitChar_ne_nil '\n' (r ++ chunk)
    have hlast : '\n' ∉ (splitChar '\n' (r ++ chunk)).getLastD [] :=
      not_mem_of_mem_splitChar '\n' (r ++ chunk) _ (getLastD_mem_of_ne_nil _ hne)
    rw [ih _ hlast, splitChar_sepFree_append '\n' _ rest.flatten hlast,
      ← List.append_assoc, splitChar_append '\n' (r ++ chunk) rest.flatten]

theorem lookup_mem {β : Type} (l : List (String × β)) (k : String) (v : β)
    (h : l.lookup k = some v) : (k, v) ∈ l := by
  induction l with
  | nil => simp [List.lookup] at h
  | cons p rest ih =>
    obtain ⟨k2, v2⟩ := p
    simp only [List.lookup] at h
    cases hkk : k == k2 with
    | true =>
      rw [hkk] at h
      injection h with h
      subst h
      have : k = k2 := by simpa using hkk
      subst this
      exact List.mem_cons_self _ _
    | false =>
      rw [hkk] at h
      exact List.mem_cons_of_mem _ (ih h)

/-- C1: for every input text and every chunking of it, the logical lines the
chunk loop of loadEvents produces equal a single split of the whole text on
the line-feed character; and a text free of line feeds (in particular one
containing carriage returns) is never split, so carriage returns are not
separators. -/
theorem chunked_lines_eq_split_on_lf :
    (∀ chunks : List (List Char), chunkedLines chunks = splitChar '\n' chunks.flatten) ∧
    (∀ cs : List Char, '\n' ∉ cs → splitChar '\n' cs = [cs]) := by
  constructor
  · intro chunks
    have h := chunkLinesFrom_eq chunks [] (by simp)
    simpa [chunkedLines] using h
  · exact splitChar_of_not_mem '\n'

theorem chunked_lines_eq_split_on_lf_witness :
    chunkedLines [['a', '\r'], ['b', '\n', 'c'], [], ['d']] =
      splitChar '\n' ['a', '\r', 'b', '\n', 'c', 'd'] ∧
    splitChar '\n' ['x', '\r', 'y'] = [['x', '\r', 'y']] :=
  ⟨chunked_lines_eq_split_on_lf.1 [['a', '\r'], ['b', '\n', 'c'], [], ['d']],
   chunked_lines_eq_split_on_lf.2 ['x', '\r', 'y'] (by decide)⟩

/-- C2: for every registry entry, the created table's columns are exactly the
Envelope columns followed by the entry's declared columns, the combined list
has no duplicates (so no schema column collides with an Envelope column),
and the prepared insert statement lists the same columns in the same
order. -/
theorem table_and_insert_columns_agree :
    ∀ t schema, EVENT_SCHEMAS.lookup t = some schema →
      tableColumns schema = columnNames COMMON_DDL ++ columnNames schema.columns ∧
      (tableColumns schema).Nodup ∧
      insertColumns schema = tableColumns schema := by
  intro t schema h
  have hm := lookup_mem _ _ _ h
  fin_cases hm <;> exact ⟨by decide, by decide, by decide⟩

theorem table_and_insert_columns_agree_witness :
    tableColumns watchEventSchema = columnNames COMMON_DDL ++ columnNames watchEventSchema.columns ∧
    (tableColumns watchEventSchema).Nodup ∧
    insertColumns watchEventSchema = tableColumns watchEventSchema :=
  table_and_insert_columns_agree "WatchEvent" watchEventSchema rfl

theorem get_obj_not_mem (fields : List (String × Json)) (k : String)
    (h : k ∉ fields.map Prod.fst) : Json.get (.obj fields) k = .null := by
  induction fields with
  | nil => rfl
  | cons p rest ih =>
    simp only [List.map_cons, List.mem_cons, not_or] at h
    have hb : (k == p.1) = false := by
      simpa using h.1
    simp only [Json.get, List.lookup, hb]
    exact ih h.2

/-- C5: for every registry entry, the extract function applied to any payload
object (in particular the empty object substituted for a missing payload)
returns, without any possibility of failure, exactly one value per declared
column, and yields null for every column whose payload key is absent from
the object. -/
theorem extract_total_arity_null :
    ∀ t schema, EVENT_SCHEMAS.lookup t = some schema →
      ∀ fields : List (String × Json),
        (schema.extract (.obj fields)).length = (columnNames schema.columns).length ∧
        List.Forall₂ (fun k v => k ∉ fields.map Prod.fst → v = Json.null)
          (srcKeys t) (schema.extract (.obj fields)) := by
  intro t schema h fields
  have hm := lookup_mem _ _ _ h
  fin_cases hm
  all_goals refine ⟨rfl, ?_⟩
  all_goals repeat refine List.Forall₂.cons (fun hk => by rw [get_obj_not_mem fields _ hk]; try rfl) ?_
  all_goals exact List.Forall₂.nil

theorem extract_total_arity_null_witness :
    (watchEventSchema.extract (.obj [])).length = (columnNames watchEventSchema.columns).length ∧
    List.Forall₂ (fun k v => k ∉ (([] : List (String × Json)).map Prod.fst) → v = Json.null)
      (srcKeys "WatchEvent") (watchEventSchema.extract (.obj [])) :=
  extract_total_arity_null "WatchEvent" watchEventSchema rfl []

theorem processEvent_accepted (st : LoadState) (e : Json) (t : String) (schema : EventSchema)
    (ht : e.get "type" = .str t) (hs : EVENT_SCHEMAS.lookup t = some schema) :
    processEvent st e =
      if BATCH_SIZE ≤ (st.batch ++ [mkRow t schema e]).length then
        { count := st.count + 1,
          typeCounts := fun ty => if ty = t then st.typeCounts ty + 1 else st.typeCounts ty,
          batch := [], txns := st.txns ++ [st.batch ++ [mkRow t schema e]] }
      else
        { count := st.count + 1,
          typeCounts := fun ty => if ty = t then st.typeCounts ty + 1 else st.typeCounts ty,
          batch := st.batch ++ [mkRow t schema e], txns := st.txns } := by
  simp only [processEvent, ht, hs]

theorem foldl_processEvent_accepted (t : String) (schema : EventSchema)
    (hs : EVENT_SCHEMAS.lookup t = some schema) :
    ∀ events : List Json, (∀ e ∈ events, e.get "type" = .str t) →
      ∀ st : LoadState, st.batch.length < BATCH_SIZE →
        (∀ txn ∈ st.txns, txn.length = BATCH_SIZE) →
        ((events.foldl processEvent st).batch.length < BATCH_SIZE ∧
          ∀ txn ∈ (events.foldl processEvent st).txns, txn.length = BATCH_SIZE) ∧
        (events.foldl processEvent st).txns.flatten ++ (events.foldl processEvent st).batch =
          st.txns.flatten ++ st.batch ++ events.map (mkRow t schema) ∧
        (events.foldl processEvent st).count = st.count + events.length := by
  intro events
  induction events with
  | nil =>
    intro _ st h1 h2
    exact ⟨⟨h1, h2⟩, by simp, rfl⟩
  | cons e rest ih =>
    intro ht st h1 h2
    have hte := ht e (List.mem_cons_self _ _)
    have htr : ∀ x ∈ rest, x.get "type" = .str t := fun x hx => ht x (List.mem_cons_of_mem _ hx)
    rw [List.foldl_cons, processEvent_accepted st e t schema hte hs]
    by_cases hb : BATCH_SIZE ≤ (st.batch ++ [mkRow t schema e]).length
    · rw [if_pos hb]
      have hlen : (st.batch ++ [mkRow t schema e]).length = BATCH_SIZE := by
        simp only [List.length_append, List.length_singleton] at hb ⊢
        omega
      have h2x : ∀ txn ∈ st.txns ++ [st.batch ++ [mkRow t schema e]], txn.length = BATCH_SIZE := by
        intro txn htxn
        rcases List.mem_append.mp htxn with hmem | hmem
        · exact h2 txn hmem
        · rw [List.mem_singleton.mp hmem]
          exact hlen
      obtain ⟨hinv, hfl, hc⟩ := ih htr
        { count := st.count + 1,
          typeCounts := fun ty => if ty = t then st.typeCounts ty + 1 else st.typeCounts ty,
          batch := [], txns := st.txns ++ [st.batch ++ [mkRow t schema e]] }
        (by simp [BATCH_SIZE]) h2x
      refine ⟨hinv, ?_, ?_⟩
      · rw [hfl]
        simp [List.flatten_append, List.append_assoc]
      · rw [hc]
        simp [List.length_cons]
        try omega
    · rw [if_neg hb]
      have hlt : (st.batch ++ [mkRow t schema e]).length < BATCH_SIZE := by omega
      obtain ⟨hinv, hfl, hc⟩ := ih htr
        { count := st.count + 1,
          typeCounts := fun ty => if ty = t then st.typeCounts ty + 1 else st.typeCounts ty,
          batch := st.batch ++ [mkRow t schema e], txns := st.txns }
        hlt h2
      refine ⟨hinv, ?_, ?_⟩
      · rw [hfl]
        simp [List.append_assoc]
      · rw [hc]
        simp [List.length_cons]
        try omega

theorem finishLoad_txns_flatten (st : LoadState) :
    (finishLoad st).txns.flatten = st.txns.flatten ++ st.batch := by
  unfold finishLoad
  split
  · simp
  · next h =>
    have hb : st.batch = [] := List.eq_nil_of_length_eq_zero (by omega)
    simp [hb]

theorem finishLoad_count (st : LoadState) : (finishLoad st).count = st.count := by
  unfold finishLoad
  split <;> rfl

theorem finishLoad_typeCounts (st : LoadState) :
    (finishLoad st).typeCounts = st.typeCounts := by
  unfold finishLoad
  split <;> rfl

theorem finishLoad_txn_bounds (st : LoadState)
    (h2 : ∀ txn ∈ st.txns, txn.length = BATCH_SIZE)
    (h1 : st.batch.length < BATCH_SIZE) :
    (∀ txn ∈ (finishLoad st).txns, txn.length ≤ BATCH_SIZE) ∧
    (∀ txn ∈ (finishLoad st).txns.dropLast, txn.length = BATCH_SIZE) := by
  unfold finishLoad
  split
  · constructor
    · intro txn htxn
      rcases List.mem_append.mp htxn with hmem | hmem
      · exact le_of_eq (h2 txn hmem)
      · rw [List.mem_singleton.mp hmem]
        omega
    · intro txn htxn
      simp only [List.concat_eq_append, List.dropLast_concat] at htxn
      exact h2 txn htxn
  · exact ⟨fun txn h => le_of_eq (h2 txn h), fun txn h => h2 txn (List.dropLast_subset _ h)⟩

theorem flatten_length_le (txns : List (List (String × List Json))) (B : Nat)
    (h : ∀ txn ∈ txns, txn.length ≤ B) : txns.flatten.length ≤ txns.length * B := by
  induction txns with
  | nil => simp
  | cons x xs ih =>
    simp only [List.flatten_cons, List.length_append, List.length_cons]
    have hxs := ih (fun txn ht => h txn (List.mem_cons_of_mem _ ht))
    have hx := h x (List.mem_cons_self _ _)
    calc x.length + xs.flatten.length ≤ B + xs.length * B := by omega
    _ = (xs.length + 1) * B := by ring

theorem foldl_processLine_eq (lines : List String) :
    ∀ st : LoadState, lines.foldl processLine st = (decodedOf lines).foldl processEvent st := by
  induction lines with
  | nil => intro st; rfl
  | cons l rest ih =>
    intro st
    rw [List.foldl_cons]
    unfold decodedOf
    rw [List.filterMap_cons]
    by_cases hb : String.mk (trimWs l.toList) = ""
    · rw [if_pos hb]
      have hpl : processLine st l = st := by
        unfold processLine
        rw [if_pos hb]
      rw [hpl]
      exact ih st
    · rw [if_neg hb]
      cases hp : Json.parse l with
      | none =>
        have hpl : processLine st l = st := by
          unfold processLine
          rw [if_neg hb, hp]
        rw [hpl]
        exact ih st
      | some e =>
        have hpl : processLine st l = processEvent st e := by
          unfold processLine
          rw [if_neg hb, hp]
        rw [hpl]
        exact ih (processEvent st e)

theorem insertOrIgnore_not_mem (rows : List (List Json)) (vals : List Json)
    (h : rowId vals ∉ rows.map rowId) : insertOrIgnore rows vals = rows ++ [vals] := by
  unfold insertOrIgnore
  rw [if_neg]
  intro hany
  rw [List.any_eq_true] at hany
  obtain ⟨r, hr, hbeq⟩ := hany
  exact h (List.mem_map.mpr ⟨r, hr, eq_of_beq hbeq⟩)

theorem insertOrIgnore_mem (rows : List (List Json)) (vals : List Json)
    (h : rowId vals ∈ rows.map rowId) : insertOrIgnore rows vals = rows := by
  unfold insertOrIgnore
  rw [if_pos]
  obtain ⟨r, hr, he⟩ := List.mem_map.mp h
  rw [List.any_eq_true]
  exact ⟨r, hr, beq_iff_eq.mpr he⟩

theorem insertOrIgnore_nodup (rows : List (List Json)) (vals : List Json)
    (h : (rows.map rowId).Nodup) : ((insertOrIgnore rows vals).map rowId).Nodup := by
  by_cases hm : rowId vals ∈ rows.map rowId
  · rw [insertOrIgnore_mem rows vals hm]
    exact h
  · rw [insertOrIgnore_not_mem rows vals hm, List.map_append]
    have := List.Nodup.concat hm h
    simpa [List.concat_eq_append] using this

theorem applyRow_table_nodup (db : Store) (row : String × List Json)
    (hdb : ∀ tab, ((db tab).map rowId).Nodup) :
    ∀ tab, (((applyRow db row) tab).map rowId).Nodup := by
  intro tab
  unfold applyRow
  cases EVENT_SCHEMAS.lookup row.1 with
  | none => exact hdb tab
  | some schema =>
    by_cases htab : tab = schema.table
    · simp only [htab, if_pos rfl]
      exact insertOrIgnore_nodup _ _ (hdb schema.table)
    · simp only [if_neg htab]
      exact hdb tab

theorem foldl_applyRow_nodup (rows : List (String × List Json)) (db : Store)
    (hdb : ∀ tab, ((db tab).map rowId).Nodup) :
    ∀ tab, (((rows.foldl applyRow db) tab).map rowId).Nodup := by
  induction rows generalizing db with
  | nil => exact hdb
  | cons r rest ih => exact ih _ (applyRow_table_nodup db r hdb)

theorem foldl_applyRow_count (t : String) (schema : EventSchema)
    (hs : EVENT_SCHEMAS.lookup t = some schema) :
    ∀ rows : List (String × List Json), ∀ db : Store,
      (∀ r ∈ rows, r.1 = t) →
      (rows.map (fun r => rowId r.2)).Nodup →
      (∀ r ∈ rows, rowId r.2 ∉ (db schema.table).map rowId) →
      ((rows.foldl applyRow db) schema.table).length = (db schema.table).length + rows.length := by
  intro rows
  induction rows with
  | nil => intro db _ _ _; simp
  | cons r rest ih =>
    intro db hall hnd hfresh
    have hr1 : r.1 = t := hall r (List.mem_cons_self _ _)
    have hins : (applyRow db r) schema.table = db schema.table ++ [r.2] := by
      unfold applyRow
      rw [hr1, hs]
      simp only [if_pos rfl]
      exact insertOrIgnore_not_mem _ _ (hfresh r (List.mem_cons_self _ _))
    rw [List.map_cons] at hnd
    obtain ⟨hnotin, hnd2⟩ := List.nodup_cons.mp hnd
    rw [List.foldl_cons]
    have hstep := ih (applyRow db r)
      (fun x hx => hall x (List.mem_cons_of_mem _ hx)) hnd2
      (by
        intro x hx
        rw [hins, List.map_append]
        simp only [List.map_cons, List.map_nil, List.mem_append, List.mem_singleton]
        rintro (hmem | heq)
        · exact hfresh x (List.mem_cons_of_mem _ hx) hmem
        · exact hnotin (heq ▸ List.mem_map.mpr ⟨x, hx, rfl⟩))
    rw [hstep, hins]
    simp only [List.length_append, List.length_singleton, List.length_cons, List.length_nil]
    omega

theorem rowId_mkRow (t : String) (schema : EventSchema) (e : Json) :
    rowId (mkRow t schema e).2 = some (jsString (e.get "id")) := rfl

/-- C3: when the input yields N accepted rows of one registered type with N
above the batch threshold, loadEvents commits them across at least two flush
transactions, every full flush carries exactly BATCH_SIZE rows, the committed
rows are exactly the accepted rows in order (each executed once), the running
count equals N, and with distinct identifiers the rows stored in the type's
table number exactly N; the record-level loop agrees with the line-level
loadEvents loop on any line sequence decoding to these records. -/
theorem batch_flush_totals (events : List Json) (t : String) (schema : EventSchema) (N : Nat)
    (hs : EVENT_SCHEMAS.lookup t = some schema)
    (ht : ∀ e ∈ events, e.get "type" = .str t)
    (hN : events.length = N)
    (hgt : BATCH_SIZE < N)
    (hids : (events.map (fun e => jsString (e.get "id"))).Nodup) :
    2 ≤ (loadRecords events).txns.length ∧
    (loadRecords events).txns.flatten = events.map (mkRow t schema) ∧
    (∀ txn ∈ (loadRecords events).txns.dropLast, txn.length = BATCH_SIZE) ∧
    (loadRecords events).count = N ∧
    ((applyTxns (loadRecords events).txns) schema.table).length = N ∧
    (∀ lines, decodedOf lines = events → loadLines lines = loadRecords events) := by
  obtain ⟨⟨hblt, htxn⟩, hfl, hc⟩ := foldl_processEvent_accepted t schema hs events ht initState
    (by simp [initState, BATCH_SIZE]) (by simp [initState])
  have hflat : (loadRecords events).txns.flatten = events.map (mkRow t schema) := by
    show (finishLoad _).txns.flatten = _
    rw [finishLoad_txns_flatten, hfl]
    simp [initState]
  have hbounds := finishLoad_txn_bounds _ htxn hblt
  have hcount : (loadRecords events).count = N := by
    show (finishLoad _).count = N
    rw [finishLoad_count, hc]
    simpa [initState] using hN
  refine ⟨?_, hflat, hbounds.2, hcount, ?_, ?_⟩
  · have hlen := flatten_length_le (loadRecords events).txns BATCH_SIZE hbounds.1
    rw [hflat] at hlen
    simp only [List.length_map, hN] at hlen
    simp only [BATCH_SIZE] at hlen hgt
    omega
  · show ((((loadRecords events).txns.flatten).foldl applyRow emptyStore) schema.table).length = N
    rw [hflat]
    have hcnt := foldl_applyRow_count t schema hs (events.map (mkRow t schema)) emptyStore
      (by
        intro r hr
        obtain ⟨e, _, rfl⟩ := List.mem_map.mp hr
        rfl)
      (by
        rw [List.map_map]
        have hcomp : ((fun r : String × List Json => rowId r.2) ∘ mkRow t schema) =
            (fun e : Json => some (jsString (e.get "id"))) := rfl
        rw [hcomp]
        have hsome : ((fun e : Json => some (jsString (e.get "id")))) =
            (Option.some ∘ fun e : Json => jsString (e.get "id")) := rfl
        rw [hsome, ← List.map_map]
        exact hids.map (Option.some_injective String))
      (by simp [emptyStore])
    rw [hcnt]
    simpa [emptyStore] using hN
  · intro lines hdec
    show finishLoad (lines.foldl processLine initState) = finishLoad (events.foldl processEvent initState)
    rw [foldl_processLine_eq, hdec]

theorem batch_flush_totals_witness :
    2 ≤ (loadRecords ((List.range 10001).map watchStub)).txns.length ∧
    (loadRecords ((List.range 10001).map watchStub)).count = 10001 := by
  have h := batch_flush_totals ((List.range 10001).map watchStub) "WatchEvent" watchEventSchema
    10001 rfl
    (by
      intro e he
      obtain ⟨i, _, rfl⟩ := List.mem_map.mp he
      rfl)
    (by simp)
    (by norm_num [BATCH_SIZE])
    (by
      rw [List.map_map]
      have hcomp : ((fun e : Json => jsString (e.get "id")) ∘ watchStub) =
          (fun i : Nat => String.mk (List.replicate i 'a')) := rfl
      rw [hcomp]
      refine List.Nodup.map ?_ (List.nodup_range 10001)
      intro a b hab
      have h2 : List.replicate a 'a' = List.replicate b 'a' := by
        injection hab
      have := congrArg List.length h2
      simpa using this)
  exact ⟨h.1, h.2.2.2.1⟩

/-- C4: rows are keyed on the envelope identifier with insert-or-ignore
semantics: after any run, every table holds at most one row per identifier
(its key column values are pairwise distinct); and because a run first
destroys any prior store, re-running the pipeline on the same snapshot
yields the same store, in particular identical per-table row counts. -/
theorem ingest_idempotent_by_id (prior : Store) (lines : List String) :
    (∀ tab, (((runPipeline prior lines) tab).map rowId).Nodup) ∧
    (∀ tab, ((runPipeline (runPipeline prior lines) lines) tab).length =
      ((runPipeline prior lines) tab).length) := by
  constructor
  · intro tab
    exact foldl_applyRow_nodup _ emptyStore (fun _ => List.nodup_nil) tab
  · intro tab
    rfl

theorem processEvent_count (st : LoadState) (e : Json) :
    (processEvent st e).count = st.count + (if isRegistered e then 1 else 0) := by
  cases hg : e.get "type" with
  | str t =>
    cases hl : EVENT_SCHEMAS.lookup t with
    | none => simp [processEvent, isRegistered, hg, hl]
    | some schema =>
      simp only [processEvent, isRegistered, hg, hl]
      split <;> simp
  | null => simp [processEvent, isRegistered, hg]
  | bool b => simp [processEvent, isRegistered, hg]
  | num n => simp [processEvent, isRegistered, hg]
  | arr xs => simp [processEvent, isRegistered, hg]
  | obj fs => simp [processEvent, isRegistered, hg]

theorem processEvent_typeCounts (st : LoadState) (e : Json) (t : String) :
    (processEvent st e).typeCounts t =
      st.typeCounts t + (if isRegistered e && hasTypeTag e t then 1 else 0) := by
  cases hg : e.get "type" with
  | str t0 =>
    cases hl : EVENT_SCHEMAS.lookup t0 with
    | none => simp [processEvent, isRegistered, hasTypeTag, hg, hl]
    | some schema =>
      simp only [processEvent, isRegistered, hasTypeTag, hg, hl]
      by_cases hT : t = t0
      · subst hT
        split <;> simp
      · have hbeq : (t0 == t) = false := beq_eq_false_iff_ne.mpr (Ne.symm hT)
        split <;> simp [hT, hbeq]
  | null => simp [processEvent, isRegistered, hasTypeTag, hg]
  | bool b => simp [processEvent, isRegistered, hasTypeTag, hg]
  | num n => simp [processEvent, isRegistered, hasTypeTag, hg]
  | arr xs => simp [processEvent, isRegistered, hasTypeTag, hg]
  | obj fs => simp [processEvent, isRegistered, hasTypeTag, hg]

theorem foldl_processEvent_counts (events : List Json) :
    ∀ st : LoadState,
      ((events.foldl processEvent st).count = st.count + (events.filter isRegistered).length) ∧
      (∀ t, (events.foldl processEvent st).typeCounts t =
        st.typeCounts t + (events.filter (fun e => isRegistered e && hasTypeTag e t)).length) := by
  induction events with
  | nil => intro st; simp
  | cons e rest ih =>
    intro st
    rw [List.foldl_cons]
    obtain ⟨ihc, iht⟩ := ih (processEvent st e)
    constructor
    · rw [ihc, processEvent_count, List.filter_cons]
      cases hreg : isRegistered e <;> simp <;> omega
    · intro t
      rw [iht t, processEvent_typeCounts, List.filter_cons]
      cases hreg : (isRegistered e && hasTypeTag e t) <;> simp <;> omega

/-- C10: the running total counts every non-blank decodable line whose type
tag is registered, and the per-type counts count every such line with that
tag, duplicates of an already-seen identifier included; consequently on an
input repeating one identifier, the reported total and per-type count exceed
the rows actually stored after INSERT OR IGNORE deduplication. -/
theorem counts_include_duplicate_ids :
    (∀ lines, (loadLines lines).count = ((decodedOf lines).filter isRegistered).length) ∧
    (∀ lines t, (loadLines lines).typeCounts t =
      ((decodedOf lines).filter (fun e => isRegistered e && hasTypeTag e t)).length) ∧
    (∃ lines,
      ((runPipeline emptyStore lines) "watch_events").length < (loadLines lines).count ∧
      ((runPipeline emptyStore lines) "watch_events").length <
        (loadLines lines).typeCounts "WatchEvent") := by
  refine ⟨?_, ?_, ⟨[watchLine, watchLine], ?_, ?_⟩⟩
  · intro lines
    show (finishLoad _).count = _
    rw [finishLoad_count, foldl_processLine_eq]
    have h := (foldl_processEvent_counts (decodedOf lines) initState).1
    simpa [initState] using h
  · intro lines t
    show (finishLoad _).typeCounts t = _
    rw [finishLoad_typeCounts, foldl_processLine_eq]
    have h := (foldl_processEvent_counts (decodedOf lines) initState).2 t
    simpa [initState] using h
  · decide
  · decide

/-- C6: the download function of archive.ts bounds no redirect depth: on a
URL whose response is a 302 redirect to itself, the recursion never produces
any outcome — in particular never a redirect-loop error — no matter how many
hops are observed. This contradicts the specified fixed redirect cap with a
redirect-loop failure beyond it. -/
theorem download_redirects_unbounded :
    ∀ fuel : Nat,
      download (fun _ => { statusCode := 302, location := "https://loop" }) fuel "https://loop" =
        none := by
  intro fuel
  induction fuel with
  | zero => rfl
  | succ n ih => simpa [download] using ih

/-- C7 (amended): a line that fails to decode is skipped with the loader
state entirely unchanged — so it is not counted anywhere — and the run
continues: processing it before any remaining lines gives the same result as
processing the remaining lines alone. -/
theorem undecodable_line_skipped (st : LoadState) (line : String)
    (h : Json.parse line = none) :
    processLine st line = st ∧
    ∀ rest : List String, (line :: rest).foldl processLine st = rest.foldl processLine st := by
  have hpl : processLine st line = st := by
    unfold processLine
    split
    · rfl
    · rw [h]
  exact ⟨hpl, fun rest => by rw [List.foldl_cons, hpl]⟩

theorem undecodable_line_skipped_witness :
    processLine initState "not json" = initState ∧
    (["not json", watchLine] : List String).foldl processLine initState =
      ([watchLine] : List String).foldl processLine initState :=
  ⟨(undecodable_line_skipped initState "not json" rfl).1,
   (undecodable_line_skipped initState "not json" rfl).2 [watchLine]⟩

/-- C7 counterexample: on the non-blank undecodable line "not json" the
loader state is completely unchanged — in particular the running count stays
at zero, so the line is skipped but not counted, contradicting the claim
that such lines are counted. -/
theorem undecodable_line_not_counted_cex :
    processLine initState "not json" = initState ∧
    (processLine initState "not json").count = 0 :=
  ⟨rfl, rfl⟩

/-- C9 (amended): with no arguments parseArgs yields yesterday's UTC date
and hour 0; a first argument failing the date format check is rejected
before any request is issued; and a second argument whose parseInt value is
NaN or outside 0-23 is likewise rejected before any request. (An argument
with a parsable in-range decimal prefix, such as "5x", is accepted rather
than rejected.) -/
theorem parseArgs_validation :
    (∀ today, parseArgs today [] = .ok (formatYMD (yesterdayUTC today), 0)) ∧
    (∀ today args, args ≠ [] → isDateFormat (args.headD "") = false →
      (∃ msg, parseArgs today args = .error msg) ∧ mainRequests today args = []) ∧
    (∀ today args, 2 ≤ args.length → isDateFormat (args.headD "") = true →
      (parseIntBase10 (args.getD 1 "") = none ∨
        ∃ n, parseIntBase10 (args.getD 1 "") = some n ∧ (n < 0 ∨ 23 < n)) →
      (∃ msg, parseArgs today args = .error msg) ∧ mainRequests today args = []) := by
  refine ⟨fun today => rfl, ?_, ?_⟩
  · intro today args hne hdate
    have hlen : ¬ args.length = 0 := by simpa [List.length_eq_zero] using hne
    have herr : parseArgs today args =
        .error ("Invalid date format: " ++ args.headD "" ++ ". Expected YYYY-MM-DD") := by
      unfold parseArgs
      rw [if_neg hlen, if_pos (show (!isDateFormat (args.headD "")) = true by rw [hdate]; rfl)]
    refine ⟨⟨_, herr⟩, ?_⟩
    unfold mainRequests
    rw [herr]
  · intro today args hlen2 hdate hbad
    have hlen : ¬ args.length = 0 := by omega
    have herr : ∃ msg, parseArgs today args = .error msg := by
      unfold parseArgs
      rw [if_neg hlen,
        if_neg (show ¬((!isDateFormat (args.headD "")) = true) by rw [hdate]; simp),
        if_pos hlen2]
      rcases hbad with hnone | ⟨n, hn, hrange⟩
      · rw [hnone]
        exact ⟨_, rfl⟩
      · rw [hn]
        have hcond : (n < 0 || 23 < n) = true := by
          rcases hrange with h | h <;> simp [h]
        simp only [hcond, if_true]
        exact ⟨_, rfl⟩
    obtain ⟨msg, herr⟩ := herr
    refine ⟨⟨msg, herr⟩, ?_⟩
    unfold mainRequests
    rw [herr]

theorem parseArgs_validation_witness :
    parseArgs (2024, 3, 1) [] = .ok ("2024-02-29", 0) ∧
    (∃ msg, parseArgs (2024, 3, 1) ["2024/01/01"] = .error msg) ∧
    (∃ msg, parseArgs (2024, 3, 1) ["2024-01-01", "99"] = .error msg) :=
  ⟨parseArgs_validation.1 (2024, 3, 1),
   (parseArgs_validation.2.1 (2024, 3, 1) ["2024/01/01"] (by simp) rfl).1,
   (parseArgs_validation.2.2 (2024, 3, 1) ["2024-01-01", "99"] (by simp) rfl
     (Or.inr ⟨99, rfl, Or.inr (by norm_num)⟩)).1⟩

/-- C9 counterexample: the hour argument "5x" does not denote an integer at
all, yet parseArgs accepts the invocation (parseInt takes the decimal prefix
5), instead of failing as the claim requires. -/
theorem parseArgs_accepts_nonnumeric_hour_cex :
    denotesHourInRange "5x" = false ∧
    parseArgs (2024, 1, 2) ["2024-01-01", "5x"] = .ok ("2024-01-01", 5) :=
  ⟨rfl, rfl⟩

theorem lookup_filter_ne (fields : List (String × Json)) (k k2 : String) (hne : k2 ≠ k) :
    (fields.filter (fun kv => !(kv.1 == k))).lookup k2 = fields.lookup k2 := by
  induction fields with
  | nil => rfl
  | cons p rest ih =>
    obtain ⟨p1, p2⟩ := p
    rw [List.filter_cons]
    by_cases hp : p1 = k
    · have hc : (!((p1, p2).1 == k)) = false := by simp [hp]
      rw [hc]
      simp only [Bool.false_eq_true, if_false]
      rw [ih]
      have hb : (k2 == p1) = false := beq_eq_false_iff_ne.mpr (hp ▸ hne)
      simp [List.lookup, hb]
    · have hc : (!((p1, p2).1 == k)) = true := by simp [hp]
      rw [hc]
      simp only [if_true]
      by_cases hk2 : k2 = p1
      · simp [List.lookup, hk2]
      · have hb : (k2 == p1) = false := beq_eq_false_iff_ne.mpr hk2
        simp [List.lookup, hb, ih]

theorem get_filter_ne (fields : List (String × Json)) (k k2 : String) (hne : k2 ≠ k) :
    Json.get (.obj (fields.filter (fun kv => !(kv.1 == k)))) k2 = Json.get (.obj fields) k2 := by
  simp [Json.get, lookup_filter_ne fields k k2 hne]

/-- C8: a top-level key outside the recognized envelope key set lands, with
its value, in the residual mapping serialized into the row's final "other"
column; every other column of the row is computed exactly as for the record
with that key removed (so the value reaches no other column), and the
extraction input (the payload) is likewise unchanged; a record with no
unrecognized keys gets a null "other" column. -/
theorem other_column_captures_residual :
    (∀ (fields : List (String × Json)) (k : String) (v : Json),
      (k, v) ∈ fields → k ∉ KNOWN_EVENT_KEYS →
      (k, v) ∈ otherFields fields ∧
      (commonValues (.obj fields)).getLast? =
        some (.str (Json.render (.obj (otherFields fields)))) ∧
      (commonValues (.obj fields)).dropLast =
        (commonValues (.obj (fields.filter (fun kv => !(kv.1 == k))))).dropLast ∧
      payloadOrEmpty (.obj fields) =
        payloadOrEmpty (.obj (fields.filter (fun kv => !(kv.1 == k))))) ∧
    (∀ fields : List (String × Json), otherFields fields = [] →
      (commonValues (.obj fields)).getLast? = some Json.null) := by
  constructor
  · intro fields k v hmem hk
    have hcf : (!(KNOWN_EVENT_KEYS.contains k)) = true := by
      have : KNOWN_EVENT_KEYS.contains k = false := by simpa using hk
      rw [this]
      rfl
    have hmem2 : (k, v) ∈ otherFields fields :=
      List.mem_filter.mpr ⟨hmem, hcf⟩
    have hlen : 0 < (otherFields fields).length :=
      List.length_pos.mpr (List.ne_nil_of_mem hmem2)
    have hget : ∀ k2, k2 ∈ KNOWN_EVENT_KEYS →
        Json.get (.obj (fields.filter (fun kv => !(kv.1 == k)))) k2 = Json.get (.obj fields) k2 :=
      fun k2 hk2 => get_filter_ne fields k k2 (fun he => hk (he ▸ hk2))
    refine ⟨hmem2, ?_, ?_, ?_⟩
    · simp only [commonValues]
      simp only [List.getLast?_cons_cons, List.getLast?_singleton]
      rw [if_pos hlen]
    · simp only [commonValues]
      simp only [List.dropLast_cons₂, List.dropLast_single]
      simp only [hget "id" (by decide), hget "created_at" (by decide),
        hget "public" (by decide), hget "actor" (by decide), hget "repo" (by decide),
        hget "org" (by decide)]
    · unfold payloadOrEmpty
      rw [hget "payload" (by decide)]
  · intro fields hof
    simp only [commonValues]
    simp only [List.getLast?_cons_cons, List.getLast?_singleton]
    rw [hof]
    rfl

theorem other_column_captures_residual_witness :
    ("zzz", Json.num 5) ∈ otherFields [("id", Json.str "1"), ("zzz", Json.num 5)] ∧
    (commonValues (.obj [("id", Json.str "1"), ("zzz", Json.num 5)])).getLast? =
      some (.str (Json.render (.obj (otherFields [("id", Json.str "1"), ("zzz", Json.num 5)])))) ∧
    (commonValues (.obj [("id", Json.str "1")])).getLast? = some Json.null := by
  have h1 := (other_column_captures_residual.1 [("id", Json.str "1"), ("zzz", Json.num 5)]
    "zzz" (Json.num 5) (by simp) (by decide))
  exact ⟨h1.1, h1.2.1, other_column_captures_residual.2 [("id", Json.str "1")] rfl⟩

end GhArchive
